import Mathlib

/-!
Shallow embedding of the fetch/extract merge-and-dedup routine of
`analysis_engine/ap/fetch_data.py` (function `fetch_data`), together with the
constants it consumes from `analysis_engine/ap/consts.py`, and theorems about
the specification claims concerning this routine.

Modelling conventions:

* A record (a Python dict obtained from
  `json.loads(df.to_json(orient='records'))`) is an association list
  `Row := List (String × Val)` with lookup `alookup` (first match, as in a
  dict; the dicts produced by `json.loads` have unique keys).
* A scalar value is `Val`: a string or a number.  Numbers are exact
  rationals standing in for the JSON floats; Python renders values inside
  f-strings with `str`, abstracted here by the injective rendering `pyStr`.
  The merge logic only concatenates and compares these rendered strings, so
  any injective rendering is faithful.
* pandas calls: `pd.DataFrame(records)` is the record list itself;
  `df.sort_values(by=['date','strike'], ascending=True)` returns a new sorted
  frame and raises `KeyError` when `'date'` or `'strike'` is not a column of
  the frame (a column exists when at least one record carries the field).
  A multi-key `sort_values` is a stable lexicographic sort (the `kind`
  argument only applies to single-key sorts), embedded as a stable insertion
  sort.
* Exceptions are modelled by dedicated outcome constructors.
* The external collaborators `ap_fetch.fetch_calls` / `fetch_puts` and
  `ap_extract.extract_option_calls_dataset` / `extract_option_puts_dataset`
  are opaque network/cache calls (spec section 6): the embedding takes the
  status and the rows each one returns as parameters of `fetchDataCalls`.
-/

namespace StockAnalysis

/-- A scalar value of a record.  Numbers are exact rationals standing in for
the floats `json.loads` produces. -/
inductive Val
  | vs (s : String)
  | vn (q : ℚ)
deriving DecidableEq

/-- One record (Python dict) of a batch. -/
abbrev Row := List (String × Val)

/-- Dict lookup: first entry with the given key, as Python `d[k]` / `k in d`. -/
def alookup {α : Type} : List (String × α) → String → Option α
  | [], _ => Option.none
  | (k, v) :: t, c => if c = k then some v else alookup t c

/-- Python `str` rendering of a value, as used inside the f-string that builds
the dedup key.  The numeric rendering is abstracted by an injective encoding;
only concatenation and equality of rendered strings matter to the code. -/
def pyStr : Val → String
  | Val.vs s => s
  | Val.vn q =>
      if q.den = 1 then toString q.num
      else toString q.num ++ "/" ++ toString q.den

/-- `AP_OPTION_COLUMNS` of `analysis_engine/ap/consts.py` (lines 72-90): the
allow-listed field set of an option row. -/
def AP_OPTION_COLUMNS : List String :=
  ["ask", "ask_date", "asksize", "bid", "bid_date", "bidsize", "date",
   "exp_date", "last", "last_volume", "open_interest", "opt_type", "strike",
   "ticker", "trade_date", "created", "volume"]

/-- `FETCH_AP_CALLS` of `analysis_engine/ap/consts.py` (line 36). -/
def FETCH_AP_CALLS : Int := 20000

/-- `FETCH_AP_PUTS` of `analysis_engine/ap/consts.py` (line 37). -/
def FETCH_AP_PUTS : Int := 20001

/-- `new_node.pop(k, None)`: drop the entry with the given key, keep order. -/
def popKey (r : Row) (k : String) : Row :=
  r.filter (fun p => !(p.1 == k))

/-- The allow-list projection loop of `fetch_data`
(`for c in ap_consts.AP_OPTION_COLUMNS: if c in row: new_node[c] = row[c]`). -/
def projectColumns (cols : List String) (r : Row) : Row :=
  cols.filterMap (fun c => (alookup r c).map (fun v => (c, v)))

/-- The row normalizer of `fetch_data.py` (lines 115-121 and 131-137): project
the raw row onto the allow-list, then `pop('index', None)` and
`pop('level_0', None)`. -/
def normalizeRow (r : Row) : Row :=
  popKey (popKey (projectColumns AP_OPTION_COLUMNS r) "index") "level_0"

/-- The dedup key `date_strike_name = f-string of row['created'], '_',
row['strike']` (lines 112-113 and 127-128).  `Option.none` models the
`KeyError` raised when either field is absent. -/
def dateStrikeName (r : Row) : Option String :=
  match alookup r "created", alookup r "strike" with
  | some c, some s => some (pyStr c ++ "_" ++ pyStr s)
  | _, _ => Option.none

/-- One merge loop of `fetch_data` (lines 111-124 for the extracted records
and lines 126-148 for the fetched records): walk the rows in input order; a
row whose key is unseen is normalized and appended to the output and its key
marked seen; a row whose key was already seen is skipped (only logged).
`Option.none` models the uncaught `KeyError` raised while building the key of
a malformed row: the extracted loop has no handler at all, and in the fetched
loop the key is built one statement before the `try`, so the `except` clause
never observes it. -/
def addRows : List Row → List String → List Row → Option (List String × List Row)
  | [], seen, out => some (seen, out)
  | r :: rs, seen, out =>
    match dateStrikeName r with
    | Option.none => Option.none
    | some k =>
      if k ∈ seen then addRows rs seen out
      else addRows rs (k :: seen) (out ++ [normalizeRow r])

/-- Outcome of the merge of lines 109-148. -/
inductive MergeOutcome
  | ok (records : List Row)
  | raisedKeyError
  | errNone
deriving DecidableEq

/-- Merge of the extracted (base) records with the fetched (incoming) records
(lines 109-148): the base loop runs first, the incoming loop second, sharing
the seen-key set and the output list.  `MergeOutcome.errNone` is the
`return ae_consts.ERR, None` of the `except` handler (line 147); it is
unreachable because every statement inside the `try` block is total — the
fallible key construction sits before the `try` (see
`mergeRecords_ne_errNone`). -/
def mergeRecords (extracted fetched : List Row) : MergeOutcome :=
  match addRows extracted [] [] with
  | Option.none => MergeOutcome.raisedKeyError
  | some (seen, out) =>
    match addRows fetched seen out with
    | Option.none => MergeOutcome.raisedKeyError
    | some (_, out2) => MergeOutcome.ok out2

/-- Modelled from the spec: the status sentinels of `analysis_engine/consts.py`
(`SUCCESS`, `ERR`, `EMPTY`, `NOT_RUN`, `NOT_SET`), whose defining module is
not under `src/`; spec section 6 lists the codes, and `fetch_data` only ever
compares them for equality, so only their distinctness is modelled. -/
inductive Status
  | SUCCESS
  | ERR
  | EMPTY
  | NOT_RUN
  | NOT_SET
deriving DecidableEq

/-- Lexicographic strict order on strings by code point, as Python compares
strings. -/
def strLt : List Char → List Char → Bool
  | [], [] => false
  | [], _ :: _ => true
  | _ :: _, [] => false
  | a :: as, b :: bs =>
    if a.toNat < b.toNat then true
    else if b.toNat < a.toNat then false
    else strLt as bs

/-- Non-strict string order by code point. -/
def strLe (a b : String) : Bool := a == b || strLt a.data b.data

/-- Value comparison as pandas orders a homogeneous column; across kinds the
model totalizes (pandas would raise on a mixed object column). -/
def valLe : Val → Val → Bool
  | Val.vn a, Val.vn b => decide (a ≤ b)
  | Val.vs a, Val.vs b => strLe a b
  | Val.vn _, Val.vs _ => true
  | Val.vs _, Val.vn _ => false

/-- Missing values (`NaN`) sort last (`na_position='last'`, the default). -/
def optValLe : Option Val → Option Val → Bool
  | Option.none, Option.none => true
  | Option.none, some _ => false
  | some _, Option.none => true
  | some a, some b => valLe a b

def optValLt (a b : Option Val) : Bool :=
  optValLe a b && !(optValLe b a)

/-- Ascending lexicographic comparison on `('date', 'strike')`, as
`sort_values(by=['date','strike'], ascending=True)` orders rows. -/
def rowLe (a b : Row) : Bool :=
  if alookup a "date" = alookup b "date" then
    optValLe (alookup a "strike") (alookup b "strike")
  else
    optValLt (alookup a "date") (alookup b "date")

/-- Stable insert: a later row goes after every earlier row that is `≤` it. -/
def insertRow (x : Row) : List Row → List Row
  | [] => [x]
  | y :: ys => if rowLe y x then y :: insertRow x ys else x :: y :: ys

/-- Stable ascending sort by `('date', 'strike')`: a multi-key
`DataFrame.sort_values` is a stable lexicographic sort. -/
def sortByDateStrike (records : List Row) : List Row :=
  records.foldl (fun acc x => insertRow x acc) []

/-- A field is a column of `pd.DataFrame(records)` exactly when some record
carries it. -/
def hasColumn (records : List Row) (c : String) : Bool :=
  records.any (fun r => (alookup r c).isSome)

/-- `sort_values(by=['date','strike'], ...)` raises `KeyError` when a sort
field is not a column of the frame. -/
def sortValuesRaises (records : List Row) : Bool :=
  !(hasColumn records "date" && hasColumn records "strike")

/-- Outcome of a `fetch_data` call: a returned `(status, df)` pair — with
`Option.none` standing for Python `None` in the dataframe position — or an
uncaught exception. -/
inductive FetchOutcome
  | result (status : Status) (df : Option (List Row))
  | raisedKeyError
  | raisedNotImplemented
deriving DecidableEq

/-- `df = pd.DataFrame([{}])` (line 66): one row with no columns. -/
def initialDf : List Row := [[]]

/-- The calls branch of `fetch_data` (lines 68-168), parameterized by the
results of its two external collaborators: `fetchStatus`, `fetchDf` from
`ap_fetch.fetch_calls` and `extStatus`, `extDf` from
`ap_extract.extract_option_calls_dataset`.  In the merge path the
`df.sort_values(...)` of lines 151-156 is neither assigned nor `inplace`, so
only the `KeyError` it can raise is observable and the merged records are
returned in merge order; in the fallback of lines 159-164 the sorted frame is
assigned to `df`.  When the fetch itself did not succeed the initial
`pd.DataFrame([{}])` is returned with the fetch status (lines 165-167 and
276).  The puts branch (lines 169-265) is line-for-line identical merge
logic, so `fetchData` below reuses this embedding for it. -/
def fetchDataCalls (fetchStatus : Status) (fetchDf : List Row)
    (extStatus : Status) (extDf : List Row) : FetchOutcome :=
  if fetchStatus = Status.SUCCESS then
    if extStatus = Status.SUCCESS ∧ 0 < extDf.length then
      match mergeRecords extDf fetchDf with
      | MergeOutcome.raisedKeyError => FetchOutcome.raisedKeyError
      | MergeOutcome.errNone => FetchOutcome.result Status.ERR Option.none
      | MergeOutcome.ok records =>
        if sortValuesRaises records then FetchOutcome.raisedKeyError
        else FetchOutcome.result Status.SUCCESS (some records)
    else
      if sortValuesRaises fetchDf then FetchOutcome.raisedKeyError
      else FetchOutcome.result Status.SUCCESS (some (sortByDateStrike fetchDf))
  else FetchOutcome.result fetchStatus (some initialDf)

/-- A Python scalar that can appear as `fetch_type` or `work_dict['ft_type']`. -/
inductive PyScalar
  | pnone
  | pint (n : Int)
  | pstr (s : String)
deriving DecidableEq

/-- Python truthiness, as tested by `if not fetch_type` and `if fetch_type`. -/
def pyTruthy : PyScalar → Bool
  | PyScalar.pnone => false
  | PyScalar.pint n => decide (n ≠ 0)
  | PyScalar.pstr s => decide (s ≠ "")

/-- ASCII lower-casing of one character, as `str.lower` acts on the ASCII
alias strings this code compares against. -/
def asciiLowerChar (c : Char) : Char :=
  if 65 ≤ c.toNat ∧ c.toNat ≤ 90 then Char.ofNat (c.toNat + 32) else c

/-- ASCII `str.lower`. -/
def asciiLower (s : String) : String := String.mk (s.data.map asciiLowerChar)

/-- `str(fetch_type).lower()`. -/
def pyLowerStr : PyScalar → String
  | PyScalar.pnone => "none"
  | PyScalar.pint n => toString n
  | PyScalar.pstr s => asciiLower s

/-- Lines 52-55: the `fetch_type` argument, falling back to
`work_dict.get('ft_type', None)` when the argument is falsy. -/
def resolveFetchType (arg wdFt : PyScalar) : PyScalar :=
  if pyTruthy arg then arg else wdFt

/-- Lines 56-57: `use_fetch_name = str(fetch_type).lower()` when `fetch_type`
is truthy, else it stays `None`. -/
def useFetchName (ft : PyScalar) : Option String :=
  if pyTruthy ft then some (pyLowerStr ft) else Option.none

/-- Which branch of `fetch_data` runs. -/
inductive Branch
  | calls
  | puts
  | unsupported
deriving DecidableEq

/-- The dispatch of lines 68-70, 169-171 and 266-273: `use_fetch_name` is
`useFetchName (resolveFetchType arg wdFt)` and `fetch_type` is
`resolveFetchType arg wdFt` after the reassignment of lines 52-55. -/
def dispatchBranch (arg wdFt : PyScalar) : Branch :=
  if useFetchName (resolveFetchType arg wdFt) = some "apcalls" ∨
      resolveFetchType arg wdFt = PyScalar.pint FETCH_AP_CALLS then Branch.calls
  else if useFetchName (resolveFetchType arg wdFt) = some "apputs" ∨
      resolveFetchType arg wdFt = PyScalar.pint FETCH_AP_PUTS then Branch.puts
  else Branch.unsupported

/-- Full `fetch_data`: dispatch on the fetch type, then run the selected
branch; the `else` of lines 266-273 raises `NotImplementedError`.  Both data
branches run the identical merge logic (the puts branch duplicates the calls
branch line for line), so both map to `fetchDataCalls`. -/
def fetchData (arg wdFt : PyScalar) (fetchStatus : Status) (fetchDf : List Row)
    (extStatus : Status) (extDf : List Row) : FetchOutcome :=
  match dispatchBranch arg wdFt with
  | Branch.calls => fetchDataCalls fetchStatus fetchDf extStatus extDf
  | Branch.puts => fetchDataCalls fetchStatus fetchDf extStatus extDf
  | Branch.unsupported => FetchOutcome.raisedNotImplemented

/-- A `work_dict`: string-valued fields suffice for the key-derivation code. -/
abbrev WorkDict := List (String × String)

/-- The call-side derivation of `work_copy['redis_key']` and
`work_copy['s3_key']` (lines 81-86).  Note line 86: the derived `s3_key` is
built from `work_dict['redis_key']`.  `Option.none` models the `KeyError`
when the needed source field is absent. -/
def deriveKeysCalls (wd : WorkDict) : Option (String × String) :=
  match alookup wd "apcalls" with
  | some v => some (v, v ++ ".json")
  | Option.none =>
    match alookup wd "redis_key" with
    | some rk => some (rk ++ "_apcalls", rk ++ "_apcalls")
    | Option.none => Option.none

/-- The put-side derivation of `work_copy['redis_key']` and
`work_copy['s3_key']` (lines 181-186).  Note line 186: here the derived
`s3_key` is built from `work_dict['s3_key']`, unlike the call side. -/
def deriveKeysPuts (wd : WorkDict) : Option (String × String) :=
  match alookup wd "apputs" with
  | some v => some (v, v ++ ".json")
  | Option.none =>
    match alookup wd "redis_key", alookup wd "s3_key" with
    | some rk, some sk => some (rk ++ "_apputs", sk ++ "_apputs")
    | _, _ => Option.none

/-! ## Lookup lemmas for the row normalizer -/

lemma alookup_popKey (r : Row) (k c : String) :
    alookup (popKey r k) c = if c = k then Option.none else alookup r c := by
  induction r with
  | nil => simp [popKey, alookup]
  | cons p t ih =>
    obtain ⟨pk, pv⟩ := p
    by_cases hpk : pk = k
    · have hstep : popKey ((pk, pv) :: t) k = popKey t k := by
        simp [popKey, List.filter_cons, hpk]
      rw [hstep, ih]
      by_cases hck : c = k
      · simp [hck]
      · rw [if_neg hck, if_neg hck]
        have : ¬ c = pk := fun hc => hck (hc.trans hpk)
        simp [alookup, this]
    · have hstep : popKey ((pk, pv) :: t) k = (pk, pv) :: popKey t k := by
        simp [popKey, List.filter_cons, hpk]
      rw [hstep]
      by_cases hcp : c = pk
      · have hck : ¬ c = k := fun hc => hpk (hcp.symm.trans hc)
        simp [alookup, hcp, hck, hpk]
      · simp only [alookup, if_neg hcp]
        exact ih

lemma alookup_projectColumns (cols : List String) (r : Row) (c : String) :
    alookup (projectColumns cols r) c =
      if c ∈ cols then alookup r c else Option.none := by
  induction cols with
  | nil => simp [projectColumns, alookup]
  | cons cc cols ih =>
    by_cases hcc : c = cc
    · subst hcc
      cases hv : alookup r c with
      | none =>
        have hstep : projectColumns (c :: cols) r = projectColumns cols r := by
          simp [projectColumns, List.filterMap_cons, hv]
        rw [hstep, ih, hv]
        by_cases hmem : c ∈ cols <;> simp [hmem]
      | some v =>
        have hstep : projectColumns (c :: cols) r = (c, v) :: projectColumns cols r := by
          simp [projectColumns, List.filterMap_cons, hv]
        rw [hstep]
        simp [alookup, hv]
    · have halk : alookup (projectColumns (cc :: cols) r) c =
          alookup (projectColumns cols r) c := by
        cases hv : alookup r cc with
        | none =>
          have hstep : projectColumns (cc :: cols) r = projectColumns cols r := by
            simp [projectColumns, List.filterMap_cons, hv]
          rw [hstep]
        | some v =>
          have hstep : projectColumns (cc :: cols) r = (cc, v) :: projectColumns cols r := by
            simp [projectColumns, List.filterMap_cons, hv]
          rw [hstep]
          simp [alookup, hcc]
      rw [halk, ih]
      simp [List.mem_cons, hcc]

lemma alookup_normalizeRow (r : Row) (c : String) :
    alookup (normalizeRow r) c =
      if c ∈ AP_OPTION_COLUMNS then alookup r c else Option.none := by
  unfold normalizeRow
  rw [alookup_popKey, alookup_popKey, alookup_projectColumns]
  by_cases h0 : c = "level_0"
  · subst h0
    rw [if_pos rfl, if_neg (by decide : ¬ (("level_0" : String) ∈ AP_OPTION_COLUMNS))]
  · rw [if_neg h0]
    by_cases h1 : c = "index"
    · subst h1
      rw [if_pos rfl, if_neg (by decide : ¬ (("index" : String) ∈ AP_OPTION_COLUMNS))]
    · rw [if_neg h1]

lemma dateStrikeName_normalizeRow (r : Row) :
    dateStrikeName (normalizeRow r) = dateStrikeName r := by
  unfold dateStrikeName
  rw [alookup_normalizeRow, alookup_normalizeRow,
    if_pos (by decide : ("created" : String) ∈ AP_OPTION_COLUMNS),
    if_pos (by decide : ("strike" : String) ∈ AP_OPTION_COLUMNS)]

lemma dateStrikeName_congr {a b : Row}
    (h1 : alookup a "created" = alookup b "created")
    (h2 : alookup a "strike" = alookup b "strike") :
    dateStrikeName a = dateStrikeName b := by
  unfold dateStrikeName
  rw [h1, h2]

lemma mem_normalizeRow {p : String × Val} {r : Row} (h : p ∈ normalizeRow r) :
    p.1 ∈ AP_OPTION_COLUMNS ∧ p.1 ≠ "index" ∧ p.1 ≠ "level_0" ∧
      alookup r p.1 = some p.2 := by
  unfold normalizeRow popKey at h
  have hb0a := List.of_mem_filter h
  have hb0 : (!(p.1 == "level_0")) = true := hb0a
  have h1 : p ∈ (projectColumns AP_OPTION_COLUMNS r).filter
      (fun q => !(q.1 == "index")) := List.mem_of_mem_filter h
  have hb1a := List.of_mem_filter h1
  have hb1 : (!(p.1 == "index")) = true := hb1a
  have hproj : p ∈ projectColumns AP_OPTION_COLUMNS r := List.mem_of_mem_filter h1
  have hne0 : p.1 ≠ "level_0" := by
    intro hc; rw [hc] at hb0; simp at hb0
  have hne1 : p.1 ≠ "index" := by
    intro hc; rw [hc] at hb1; simp at hb1
  obtain ⟨c, hc, hf⟩ := List.mem_filterMap.mp hproj
  cases hv : alookup r c with
  | none => rw [hv] at hf; simp at hf
  | some v =>
    rw [hv] at hf
    have hpv : (c, v) = p := by simpa using hf
    subst hpv
    exact ⟨hc, hne1, hne0, hv⟩

/-! ## Unfolding equations for the merge loop -/

lemma addRows_nil (seen : List String) (out : List Row) :
    addRows [] seen out = some (seen, out) := rfl

lemma addRows_cons_none {r : Row} (rs : List Row) (seen : List String)
    (out : List Row) (h : dateStrikeName r = Option.none) :
    addRows (r :: rs) seen out = Option.none := by
  simp only [addRows, h]

lemma addRows_cons_seen {r : Row} {k : String} (rs : List Row)
    (seen : List String) (out : List Row)
    (hk : dateStrikeName r = some k) (hmem : k ∈ seen) :
    addRows (r :: rs) seen out = addRows rs seen out := by
  simp only [addRows, hk]
  rw [if_pos hmem]

lemma addRows_cons_new {r : Row} {k : String} (rs : List Row)
    (seen : List String) (out : List Row)
    (hk : dateStrikeName r = some k) (hmem : k ∉ seen) :
    addRows (r :: rs) seen out =
      addRows rs (k :: seen) (out ++ [normalizeRow r]) := by
  simp only [addRows, hk]
  rw [if_neg hmem]

/-! ## Invariants of the merge loop -/

lemma addRows_seen_mono : ∀ (rs : List Row) (seen : List String) (out : List Row)
    (s' : List String) (o' : List Row),
    addRows rs seen out = some (s', o') → ∀ x ∈ seen, x ∈ s' := by
  intro rs
  induction rs with
  | nil =>
    intro seen out s' o' h x hx
    rw [addRows_nil] at h
    simp only [Option.some.injEq, Prod.mk.injEq] at h
    exact h.1 ▸ hx
  | cons r rs ih =>
    intro seen out s' o' h x hx
    cases hk : dateStrikeName r with
    | none => rw [addRows_cons_none rs seen out hk] at h; exact absurd h (by simp)
    | some k =>
      by_cases hmem : k ∈ seen
      · rw [addRows_cons_seen rs seen out hk hmem] at h
        exact ih _ _ _ _ h x hx
      · rw [addRows_cons_new rs seen out hk hmem] at h
        exact ih _ _ _ _ h x (List.mem_cons_of_mem _ hx)

lemma addRows_out_extend : ∀ (rs : List Row) (seen : List String) (out : List Row)
    (s' : List String) (o' : List Row),
    addRows rs seen out = some (s', o') → ∃ t, o' = out ++ t := by
  intro rs
  induction rs with
  | nil =>
    intro seen out s' o' h
    rw [addRows_nil] at h
    simp only [Option.some.injEq, Prod.mk.injEq] at h
    exact ⟨[], by rw [← h.2, List.append_nil]⟩
  | cons r rs ih =>
    intro seen out s' o' h
    cases hk : dateStrikeName r with
    | none => rw [addRows_cons_none rs seen out hk] at h; exact absurd h (by simp)
    | some k =>
      by_cases hmem : k ∈ seen
      · rw [addRows_cons_seen rs seen out hk hmem] at h
        exact ih _ _ _ _ h
      · rw [addRows_cons_new rs seen out hk hmem] at h
        obtain ⟨t, ht⟩ := ih _ _ _ _ h
        exact ⟨normalizeRow r :: t, by rw [ht, List.append_assoc]; rfl⟩

lemma addRows_mem_out : ∀ (rs : List Row) (seen : List String) (out : List Row)
    (s' : List String) (o' : List Row),
    addRows rs seen out = some (s', o') →
    ∀ x ∈ o', x ∈ out ∨ ∃ r, r ∈ rs ∧ x = normalizeRow r := by
  intro rs
  induction rs with
  | nil =>
    intro seen out s' o' h x hx
    rw [addRows_nil] at h
    simp only [Option.some.injEq, Prod.mk.injEq] at h
    exact Or.inl (h.2 ▸ hx)
  | cons r rs ih =>
    intro seen out s' o' h x hx
    cases hk : dateStrikeName r with
    | none => rw [addRows_cons_none rs seen out hk] at h; exact absurd h (by simp)
    | some k =>
      by_cases hmem : k ∈ seen
      · rw [addRows_cons_seen rs seen out hk hmem] at h
        rcases ih _ _ _ _ h x hx with hl | ⟨r', hr', he⟩
        · exact Or.inl hl
        · exact Or.inr ⟨r', List.mem_cons_of_mem _ hr', he⟩
      · rw [addRows_cons_new rs seen out hk hmem] at h
        rcases ih _ _ _ _ h x hx with hl | ⟨r', hr', he⟩
        · rcases List.mem_append.mp hl with hout | hnew
          · exact Or.inl hout
          · exact Or.inr ⟨r, List.mem_cons_self r rs, List.mem_singleton.mp hnew⟩
        · exact Or.inr ⟨r', List.mem_cons_of_mem _ hr', he⟩

lemma addRows_key_covered : ∀ (rs : List Row) (seen : List String) (out : List Row)
    (s' : List String) (o' : List Row),
    addRows rs seen out = some (s', o') →
    ∀ r ∈ rs, ∃ k, dateStrikeName r = some k ∧ k ∈ s' := by
  intro rs
  induction rs with
  | nil => intro seen out s' o' h r hr; exact absurd hr (by simp)
  | cons r0 rs ih =>
    intro seen out s' o' h r hr
    cases hk : dateStrikeName r0 with
    | none => rw [addRows_cons_none rs seen out hk] at h; exact absurd h (by simp)
    | some k0 =>
      by_cases hmem : k0 ∈ seen
      · rw [addRows_cons_seen rs seen out hk hmem] at h
        rcases List.mem_cons.mp hr with rfl | hr'
        · exact ⟨k0, hk, addRows_seen_mono _ _ _ _ _ h k0 hmem⟩
        · exact ih _ _ _ _ h r hr'
      · rw [addRows_cons_new rs seen out hk hmem] at h
        rcases List.mem_cons.mp hr with rfl | hr'
        · exact ⟨k0, hk, addRows_seen_mono _ _ _ _ _ h k0 (List.mem_cons_self _ _)⟩
        · exact ih _ _ _ _ h r hr'

lemma addRows_first_mem : ∀ (rs : List Row) (seen : List String) (out : List Row)
    (s' : List String) (o' : List Row),
    addRows rs seen out = some (s', o') →
    ∀ r ∈ rs, ∀ k, dateStrikeName r = some k → k ∉ seen →
    ∃ r', r' ∈ rs ∧ dateStrikeName r' = some k ∧ normalizeRow r' ∈ o' := by
  intro rs
  induction rs with
  | nil => intro seen out s' o' h r hr; exact absurd hr (by simp)
  | cons r0 rs ih =>
    intro seen out s' o' h r hr k hkey hfresh
    cases hk : dateStrikeName r0 with
    | none => rw [addRows_cons_none rs seen out hk] at h; exact absurd h (by simp)
    | some k0 =>
      by_cases hmem : k0 ∈ seen
      · rw [addRows_cons_seen rs seen out hk hmem] at h
        rcases List.mem_cons.mp hr with rfl | hr'
        · rw [hk] at hkey
          simp only [Option.some.injEq] at hkey
          exact absurd (hkey ▸ hmem) hfresh
        · obtain ⟨r', hr'', hkey', hmem'⟩ := ih _ _ _ _ h r hr' k hkey hfresh
          exact ⟨r', List.mem_cons_of_mem _ hr'', hkey', hmem'⟩
      · rw [addRows_cons_new rs seen out hk hmem] at h
        by_cases hkk : k = k0
        · subst hkk
          obtain ⟨t, ht⟩ := addRows_out_extend _ _ _ _ _ h
          refine ⟨r0, List.mem_cons_self _ _, hk, ?_⟩
          rw [ht]
          exact List.mem_append_left _ (List.mem_append_right _ (List.mem_singleton.mpr rfl))
        · rcases List.mem_cons.mp hr with rfl | hr'
          · rw [hk] at hkey
            simp only [Option.some.injEq] at hkey
            exact absurd hkey.symm hkk
          · have hfresh' : k ∉ k0 :: seen := by
              intro hc
              rcases List.mem_cons.mp hc with hc1 | hc2
              · exact hkk hc1
              · exact hfresh hc2
            obtain ⟨r', hr'', hkey', hmem'⟩ := ih _ _ _ _ h r hr' k hkey hfresh'
            exact ⟨r', List.mem_cons_of_mem _ hr'', hkey', hmem'⟩

lemma addRows_new_key_fresh : ∀ (rs : List Row) (seen : List String) (out : List Row)
    (s' : List String) (o' : List Row),
    addRows rs seen out = some (s', o') →
    ∀ x ∈ o', x ∉ out → ∃ k, dateStrikeName x = some k ∧ k ∉ seen := by
  intro rs
  induction rs with
  | nil =>
    intro seen out s' o' h x hx hnx
    rw [addRows_nil] at h
    simp only [Option.some.injEq, Prod.mk.injEq] at h
    exact absurd (h.2 ▸ hx) hnx
  | cons r0 rs ih =>
    intro seen out s' o' h x hx hnx
    cases hk : dateStrikeName r0 with
    | none => rw [addRows_cons_none rs seen out hk] at h; exact absurd h (by simp)
    | some k0 =>
      by_cases hmem : k0 ∈ seen
      · rw [addRows_cons_seen rs seen out hk hmem] at h
        exact ih _ _ _ _ h x hx hnx
      · rw [addRows_cons_new rs seen out hk hmem] at h
        by_cases hx' : x ∈ out ++ [normalizeRow r0]
        · rcases List.mem_append.mp hx' with hout | hnew
          · exact absurd hout hnx
          · have hxe : x = normalizeRow r0 := List.mem_singleton.mp hnew
            refine ⟨k0, ?_, hmem⟩
            rw [hxe, dateStrikeName_normalizeRow]
            exact hk
        · obtain ⟨k, hkey, hfr⟩ := ih _ _ _ _ h x hx hx'
          exact ⟨k, hkey, fun hc => hfr (List.mem_cons_of_mem _ hc)⟩

lemma addRows_inv : ∀ (rs : List Row) (seen : List String) (out : List Row)
    (s' : List String) (o' : List Row),
    (∀ x ∈ out, ∃ k, dateStrikeName x = some k ∧ k ∈ seen) →
    List.Pairwise (fun a b => dateStrikeName a ≠ dateStrikeName b) out →
    addRows rs seen out = some (s', o') →
    (∀ x ∈ o', ∃ k, dateStrikeName x = some k ∧ k ∈ s') ∧
      List.Pairwise (fun a b => dateStrikeName a ≠ dateStrikeName b) o' := by
  intro rs
  induction rs with
  | nil =>
    intro seen out s' o' hkeys hpw h
    rw [addRows_nil] at h
    simp only [Option.some.injEq, Prod.mk.injEq] at h
    rw [← h.1, ← h.2]
    exact ⟨hkeys, hpw⟩
  | cons r0 rs ih =>
    intro seen out s' o' hkeys hpw h
    cases hk : dateStrikeName r0 with
    | none => rw [addRows_cons_none rs seen out hk] at h; exact absurd h (by simp)
    | some k0 =>
      by_cases hmem : k0 ∈ seen
      · rw [addRows_cons_seen rs seen out hk hmem] at h
        exact ih _ _ _ _ hkeys hpw h
      · rw [addRows_cons_new rs seen out hk hmem] at h
        have hkeys' : ∀ x ∈ out ++ [normalizeRow r0],
            ∃ k, dateStrikeName x = some k ∧ k ∈ k0 :: seen := by
          intro x hx
          rcases List.mem_append.mp hx with hout | hnew
          · obtain ⟨k, hkey, hks⟩ := hkeys x hout
            exact ⟨k, hkey, List.mem_cons_of_mem _ hks⟩
          · have hxe : x = normalizeRow r0 := List.mem_singleton.mp hnew
            refine ⟨k0, ?_, List.mem_cons_self _ _⟩
            rw [hxe, dateStrikeName_normalizeRow]
            exact hk
        have hpw' : List.Pairwise (fun a b => dateStrikeName a ≠ dateStrikeName b)
            (out ++ [normalizeRow r0]) := by
          rw [List.pairwise_append]
          refine ⟨hpw, List.pairwise_singleton _ _, ?_⟩
          intro a ha b hb
          have hbe : b = normalizeRow r0 := List.mem_singleton.mp hb
          obtain ⟨ka, hka, hkas⟩ := hkeys a ha
          rw [hka, hbe, dateStrikeName_normalizeRow, hk]
          intro hc
          simp only [Option.some.injEq] at hc
          exact hmem (hc ▸ hkas)
        exact ih _ _ _ _ hkeys' hpw' h

lemma addRows_all_seen : ∀ (rs : List Row) (seen : List String) (out : List Row),
    (∀ r ∈ rs, ∃ k, dateStrikeName r = some k ∧ k ∈ seen) →
    addRows rs seen out = some (seen, out) := by
  intro rs
  induction rs with
  | nil => intro seen out _; exact addRows_nil seen out
  | cons r0 rs ih =>
    intro seen out hall
    obtain ⟨k0, hk, hmem⟩ := hall r0 (List.mem_cons_self _ _)
    rw [addRows_cons_seen rs seen out hk hmem]
    exact ih seen out (fun r hr => hall r (List.mem_cons_of_mem _ hr))

lemma addRows_all_fresh : ∀ (rs : List Row) (seen : List String) (out : List Row),
    (∀ r ∈ rs, (dateStrikeName r).isSome) →
    List.Pairwise (fun a b => dateStrikeName a ≠ dateStrikeName b) rs →
    (∀ r ∈ rs, ∀ k, dateStrikeName r = some k → k ∉ seen) →
    ∃ s', addRows rs seen out = some (s', out ++ rs.map normalizeRow) := by
  intro rs
  induction rs with
  | nil =>
    intro seen out _ _ _
    exact ⟨seen, by rw [addRows_nil, List.map_nil, List.append_nil]⟩
  | cons r0 rs ih =>
    intro seen out hsome hpw hfresh
    cases hk : dateStrikeName r0 with
    | none =>
      have := hsome r0 (List.mem_cons_self _ _)
      rw [hk] at this
      exact absurd this (by simp)
    | some k0 =>
      have hmem : k0 ∉ seen := hfresh r0 (List.mem_cons_self _ _) k0 hk
      rw [addRows_cons_new rs seen out hk hmem]
      have hfresh' : ∀ r ∈ rs, ∀ k, dateStrikeName r = some k → k ∉ k0 :: seen := by
        intro r hr k hkey hc
        rcases List.mem_cons.mp hc with hc1 | hc2
        · have hne := (List.pairwise_cons.mp hpw).1 r hr
          rw [hk, hkey] at hne
          exact hne (by rw [hc1])
        · exact hfresh r (List.mem_cons_of_mem _ hr) k hkey hc2
      obtain ⟨s', hs'⟩ := ih (k0 :: seen) (out ++ [normalizeRow r0])
        (fun r hr => hsome r (List.mem_cons_of_mem _ hr))
        (List.pairwise_cons.mp hpw).2 hfresh'
      refine ⟨s', ?_⟩
      rw [hs', List.map_cons, List.append_assoc]
      rfl

/-! ## Lemmas about the two-pass merge -/

lemma mergeRecords_eq_keyError_left {e : List Row} (f : List Row)
    (h1 : addRows e [] [] = Option.none) :
    mergeRecords e f = MergeOutcome.raisedKeyError := by
  unfold mergeRecords
  rw [h1]

lemma mergeRecords_unfold {e : List Row} (f : List Row) {s1 : List String}
    {o1 : List Row} (h1 : addRows e [] [] = some (s1, o1)) :
    mergeRecords e f =
      (match addRows f s1 o1 with
        | Option.none => MergeOutcome.raisedKeyError
        | some (_, out2) => MergeOutcome.ok out2) := by
  unfold mergeRecords
  rw [h1]

lemma mergeRecords_eq_keyError_right {e f : List Row} {s1 : List String}
    {o1 : List Row} (h1 : addRows e [] [] = some (s1, o1))
    (h2 : addRows f s1 o1 = Option.none) :
    mergeRecords e f = MergeOutcome.raisedKeyError := by
  rw [mergeRecords_unfold f h1, h2]

lemma mergeRecords_eq_ok {e f : List Row} {s1 s2 : List String}
    {o1 o2 : List Row} (h1 : addRows e [] [] = some (s1, o1))
    (h2 : addRows f s1 o1 = some (s2, o2)) :
    mergeRecords e f = MergeOutcome.ok o2 := by
  rw [mergeRecords_unfold f h1, h2]

lemma mergeRecords_ne_errNone (e f : List Row) :
    mergeRecords e f ≠ MergeOutcome.errNone := by
  cases h1 : addRows e [] [] with
  | none => rw [mergeRecords_eq_keyError_left f h1]; simp
  | some p =>
    obtain ⟨s1, o1⟩ := p
    cases h2 : addRows f s1 o1 with
    | none => rw [mergeRecords_eq_keyError_right h1 h2]; simp
    | some p2 =>
      obtain ⟨s2, o2⟩ := p2
      rw [mergeRecords_eq_ok h1 h2]
      simp

lemma mergeRecords_ok_elim {e f : List Row} {out : List Row}
    (h : mergeRecords e f = MergeOutcome.ok out) :
    ∃ s1 o1 s2, addRows e [] [] = some (s1, o1) ∧
      addRows f s1 o1 = some (s2, out) := by
  cases h1 : addRows e [] [] with
  | none =>
    rw [mergeRecords_eq_keyError_left f h1] at h
    exact absurd h (by simp)
  | some p =>
    obtain ⟨s1, o1⟩ := p
    cases h2 : addRows f s1 o1 with
    | none =>
      rw [mergeRecords_eq_keyError_right h1 h2] at h
      exact absurd h (by simp)
    | some p2 =>
      obtain ⟨s2, o2⟩ := p2
      rw [mergeRecords_eq_ok h1 h2] at h
      simp only [MergeOutcome.ok.injEq] at h
      exact ⟨s1, o1, s2, rfl, by rw [h2, h]⟩

lemma mergeRecords_base_wins {e f out : List Row}
    (h : mergeRecords e f = MergeOutcome.ok out) :
    ∀ rb ∈ e, ∀ ri ∈ f, ∀ k, dateStrikeName rb = some k →
      dateStrikeName ri = some k →
    (∃ rb', rb' ∈ e ∧ dateStrikeName rb' = some k ∧ normalizeRow rb' ∈ out) ∧
    ((∀ rb', rb' ∈ e → dateStrikeName rb' = some k →
        normalizeRow ri ≠ normalizeRow rb') → normalizeRow ri ∉ out) := by
  obtain ⟨s1, o1, s2, h1, h2⟩ := mergeRecords_ok_elim h
  intro rb hrb ri hri k hkb hki
  constructor
  · obtain ⟨rb', hrb', hkey', hmem'⟩ :=
      addRows_first_mem _ _ _ _ _ h1 rb hrb k hkb (by simp)
    obtain ⟨t, ht⟩ := addRows_out_extend _ _ _ _ _ h2
    exact ⟨rb', hrb', hkey', ht ▸ List.mem_append_left _ hmem'⟩
  · intro hdiff hmem
    have hkni : dateStrikeName (normalizeRow ri) = some k := by
      rw [dateStrikeName_normalizeRow]; exact hki
    by_cases ho1 : normalizeRow ri ∈ o1
    · rcases addRows_mem_out _ _ _ _ _ h1 _ ho1 with habs | ⟨rb', hrb', he⟩
      · exact absurd habs (by simp)
      · have hkb' : dateStrikeName rb' = some k := by
          rw [← dateStrikeName_normalizeRow, ← he]
          exact hkni
        exact hdiff rb' hrb' hkb' he
    · obtain ⟨k', hk', hfr⟩ := addRows_new_key_fresh _ _ _ _ _ h2 _ hmem ho1
      rw [hkni] at hk'
      simp only [Option.some.injEq] at hk'
      obtain ⟨kb2, hkb2, hkb2s⟩ := addRows_key_covered _ _ _ _ _ h1 rb hrb
      rw [hkb] at hkb2
      simp only [Option.some.injEq] at hkb2
      exact hfr (hk' ▸ hkb2 ▸ hkb2s)

lemma mergeRecords_pairwise_keys {e f out : List Row}
    (h : mergeRecords e f = MergeOutcome.ok out) :
    (∀ x ∈ out, ∃ k, dateStrikeName x = some k) ∧
      List.Pairwise (fun a b => dateStrikeName a ≠ dateStrikeName b) out := by
  obtain ⟨s1, o1, s2, h1, h2⟩ := mergeRecords_ok_elim h
  have hinv1 := addRows_inv _ _ _ _ _ (by simp) (by simp) h1
  have hinv2 := addRows_inv _ _ _ _ _ hinv1.1 hinv1.2 h2
  exact ⟨fun x hx => (hinv2.1 x hx).imp (fun k hk => hk.1), hinv2.2⟩

lemma mergeRecords_provenance {e f out : List Row}
    (h : mergeRecords e f = MergeOutcome.ok out) :
    ∀ x ∈ out, ∃ r, (r ∈ e ∨ r ∈ f) ∧ x = normalizeRow r := by
  obtain ⟨s1, o1, s2, h1, h2⟩ := mergeRecords_ok_elim h
  intro x hx
  rcases addRows_mem_out _ _ _ _ _ h2 x hx with ho1 | ⟨r, hr, he⟩
  · rcases addRows_mem_out _ _ _ _ _ h1 x ho1 with habs | ⟨r, hr, he⟩
    · exact absurd habs (by simp)
    · exact ⟨r, Or.inl hr, he⟩
  · exact ⟨r, Or.inr hr, he⟩

lemma mergeRecords_self (base : List Row) :
    mergeRecords base base = mergeRecords base [] := by
  cases h1 : addRows base [] [] with
  | none =>
    rw [mergeRecords_eq_keyError_left base h1, mergeRecords_eq_keyError_left [] h1]
  | some p =>
    obtain ⟨s1, o1⟩ := p
    rw [mergeRecords_eq_ok h1 (addRows_all_seen base s1 o1
        (addRows_key_covered _ _ _ _ _ h1)),
      mergeRecords_eq_ok h1 (addRows_nil s1 o1)]

lemma mergeRecords_self_normalized {base : List Row}
    (hsome : ∀ r ∈ base, (dateStrikeName r).isSome)
    (hpw : List.Pairwise (fun a b => dateStrikeName a ≠ dateStrikeName b) base)
    (hnorm : ∀ r ∈ base, normalizeRow r = r) :
    mergeRecords base base = MergeOutcome.ok base := by
  have hmap : base.map normalizeRow = base := by
    have : ∀ l : List Row, (∀ r ∈ l, normalizeRow r = r) → l.map normalizeRow = l := by
      intro l
      induction l with
      | nil => intro _; rfl
      | cons a t ih =>
        intro hl
        rw [List.map_cons, hl a (List.mem_cons_self _ _),
          ih (fun r hr => hl r (List.mem_cons_of_mem _ hr))]
    exact this base hnorm
  obtain ⟨s', hs'⟩ := addRows_all_fresh base [] [] hsome hpw (by simp)
  rw [List.nil_append, hmap] at hs'
  exact mergeRecords_eq_ok hs'
    (addRows_all_seen base s' base (addRows_key_covered _ _ _ _ _ hs'))

/-! ## Branch extraction for the calls branch -/

lemma fetchDataCalls_eq_merge (fDf eDf : List Row) (hlen : 0 < eDf.length) :
    fetchDataCalls Status.SUCCESS fDf Status.SUCCESS eDf =
      (match mergeRecords eDf fDf with
        | MergeOutcome.raisedKeyError => FetchOutcome.raisedKeyError
        | MergeOutcome.errNone => FetchOutcome.result Status.ERR Option.none
        | MergeOutcome.ok records =>
          if sortValuesRaises records then FetchOutcome.raisedKeyError
          else FetchOutcome.result Status.SUCCESS (some records)) := by
  unfold fetchDataCalls
  rw [if_pos rfl, if_pos ⟨rfl, hlen⟩]

lemma fetchDataCalls_merge_path {fDf eDf out : List Row}
    (hne : eDf ≠ [])
    (h : fetchDataCalls Status.SUCCESS fDf Status.SUCCESS eDf =
      FetchOutcome.result Status.SUCCESS (some out)) :
    mergeRecords eDf fDf = MergeOutcome.ok out := by
  rw [fetchDataCalls_eq_merge fDf eDf (List.length_pos.mpr hne)] at h
  cases hm : mergeRecords eDf fDf with
  | raisedKeyError =>
    rw [hm] at h
    exact absurd h (by simp)
  | errNone =>
    rw [hm] at h
    exact absurd h (by simp)
  | ok records =>
    rw [hm] at h
    have h2 : (if sortValuesRaises records then FetchOutcome.raisedKeyError
        else FetchOutcome.result Status.SUCCESS (some records)) =
        FetchOutcome.result Status.SUCCESS (some out) := h
    by_cases hs : sortValuesRaises records = true
    · rw [if_pos hs] at h2
      exact absurd h2 (by simp)
    · rw [if_neg hs] at h2
      simp only [FetchOutcome.result.injEq, Option.some.injEq] at h2
      rw [h2.2]

/-! ## Concrete data for witnesses and counterexamples

Rows are written with their fields in allow-list order, so that they are
fixed points of `normalizeRow`; a Python dict is unordered, so this loses no
generality.  `bid15` and `bid16` are the exact rationals 1.5 and 1.6. -/

def bid15 : ℚ := ⟨3, 2, by decide, by decide⟩

def bid16 : ℚ := ⟨8, 5, by decide, by decide⟩

/-- The base row of the concrete scenario of spec section 8.6 (bid 1.0). -/
def baseRow : Row :=
  [("bid", Val.vn 1), ("strike", Val.vn 100),
   ("created", Val.vs "2020-01-01T00:00:00")]

/-- First incoming row of the scenario: same `(created, strike)` as `baseRow`
but bid 1.5. -/
def incRow1 : Row :=
  [("bid", Val.vn bid15), ("strike", Val.vn 100),
   ("created", Val.vs "2020-01-01T00:00:00")]

/-- Second incoming row of the scenario: a new `(created, strike)`, bid 1.6. -/
def incRow2 : Row :=
  [("bid", Val.vn bid16), ("strike", Val.vn 100),
   ("created", Val.vs "2020-01-01T00:05:00")]

/-- A well-formed row whose sort key `(date, strike)` is the later of a pair. -/
def rowLate : Row :=
  [("date", Val.vs "2020-01-02"), ("strike", Val.vn 100),
   ("created", Val.vs "2020-01-02T00:00:00")]

/-- A well-formed row whose sort key `(date, strike)` is the earlier of a pair. -/
def rowEarly : Row :=
  [("date", Val.vs "2020-01-01"), ("strike", Val.vn 100),
   ("created", Val.vs "2020-01-01T00:00:00")]

/-- A row with a `date` column and bid 1. -/
def dupRowA : Row :=
  [("bid", Val.vn 1), ("date", Val.vs "2020-01-01"), ("strike", Val.vn 100),
   ("created", Val.vs "2020-01-01T00:00:00")]

/-- A row with the same `(created, strike)` as `dupRowA` but bid 2. -/
def dupRowB : Row :=
  [("bid", Val.vn 2), ("date", Val.vs "2020-01-01"), ("strike", Val.vn 100),
   ("created", Val.vs "2020-01-01T00:00:00")]

/-- A row carrying the field `foo`, which is outside `AP_OPTION_COLUMNS`. -/
def strayFieldRow : Row :=
  [("date", Val.vs "2020-01-01"), ("strike", Val.vn 100),
   ("created", Val.vs "2020-01-01T00:00:00"), ("foo", Val.vs "bar")]

/-- An incoming row with `created` but no `strike` field. -/
def malformedRow : Row :=
  [("created", Val.vs "2020-01-01T00:05:00"), ("bid", Val.vn 1)]

/-! ## Claim theorems -/

/-- Claim C1 (confirmed): base-wins precedence.  For any batches obtained with
SUCCESS (base `eDf` non-empty, so the merge path runs) and any row present in
both batches under the same identity key, the output contains the normalized
base version of that key, and the incoming version appears in the output only
if it coincides with a base version; in particular, when the incoming version
differs from every base version of the key, it is not in the output. -/
theorem c1_base_wins_precedence :
    ∀ (fDf eDf out : List Row), eDf ≠ [] →
    fetchDataCalls Status.SUCCESS fDf Status.SUCCESS eDf =
      FetchOutcome.result Status.SUCCESS (some out) →
    ∀ rb ∈ eDf, ∀ ri ∈ fDf, ∀ k, dateStrikeName rb = some k →
      dateStrikeName ri = some k →
    (∃ rb', rb' ∈ eDf ∧ dateStrikeName rb' = some k ∧ normalizeRow rb' ∈ out) ∧
    ((∀ rb', rb' ∈ eDf → dateStrikeName rb' = some k →
        normalizeRow ri ≠ normalizeRow rb') → normalizeRow ri ∉ out) := by
  intro fDf eDf out hne h
  exact mergeRecords_base_wins (fetchDataCalls_merge_path hne h)

/-- Witness for C1 at a concrete input: base `[dupRowA]` and incoming
`[dupRowB]` share the key, the output keeps the base version and drops the
incoming one. -/
theorem c1_witness :
    (∃ rb', rb' ∈ [dupRowA] ∧
        dateStrikeName rb' = some "2020-01-01T00:00:00_100" ∧
        normalizeRow rb' ∈ [dupRowA]) ∧
    normalizeRow dupRowB ∉ [dupRowA] := by
  have h := c1_base_wins_precedence [dupRowB] [dupRowA] [dupRowA]
    (by decide) (by decide) dupRowA (by decide) dupRowB (by decide)
    "2020-01-01T00:00:00_100" (by decide) (by decide)
  exact ⟨h.1, h.2 (by decide)⟩

/-- Claim C2 (corrected), counterexample: with an empty base batch the
fallback path returns the fetched batch unreconciled, so the output of
`fetch_data` contains two distinct rows with the same `(created, strike)`
pair. -/
theorem c2_counterexample :
    fetchDataCalls Status.SUCCESS [dupRowA, dupRowB] Status.EMPTY [] =
      FetchOutcome.result Status.SUCCESS (some [dupRowA, dupRowB]) ∧
    alookup dupRowA "created" = alookup dupRowB "created" ∧
    alookup dupRowA "strike" = alookup dupRowB "strike" ∧
    dupRowA ≠ dupRowB := by decide

/-- Claim C2 (corrected), amended: every output produced through the merge
path (base non-empty, both statuses SUCCESS) has at most one row per
`(created, strike)` pair. -/
theorem c2_merge_path_dedup :
    ∀ (fDf eDf out : List Row), eDf ≠ [] →
    fetchDataCalls Status.SUCCESS fDf Status.SUCCESS eDf =
      FetchOutcome.result Status.SUCCESS (some out) →
    List.Pairwise (fun a b => ¬(alookup a "created" = alookup b "created" ∧
      alookup a "strike" = alookup b "strike")) out := by
  intro fDf eDf out hne h
  have hm := fetchDataCalls_merge_path hne h
  obtain ⟨hkeys, hpw⟩ := mergeRecords_pairwise_keys hm
  exact hpw.imp_of_mem
    (fun ha hb hne' hab => hne' (dateStrikeName_congr hab.1 hab.2))

/-- Witness for C2's amended theorem at a concrete merge-path input. -/
theorem c2_witness :
    List.Pairwise (fun a b => ¬(alookup a "created" = alookup b "created" ∧
      alookup a "strike" = alookup b "strike")) [rowLate, rowEarly] :=
  c2_merge_path_dedup [] [rowLate, rowEarly] [rowLate, rowEarly]
    (by decide) (by decide)

/-- Claim C3 (code bug): the merge path's `df.sort_values(...)` result is
discarded (neither assigned nor `inplace`), so the merged output keeps merge
order: here the two output rows are adjacent with strictly descending
`(date, strike)`, while the stable ascending sort of the same rows would swap
them. -/
theorem c3_sort_discarded :
    fetchDataCalls Status.SUCCESS [] Status.SUCCESS [rowLate, rowEarly] =
      FetchOutcome.result Status.SUCCESS (some [rowLate, rowEarly]) ∧
    rowLe rowLate rowEarly = false ∧ rowLe rowEarly rowLate = true ∧
    sortByDateStrike [rowLate, rowEarly] = [rowEarly, rowLate] := by decide

/-- Claim C4 (code bug): an incoming row lacking `strike` makes the whole
call raise an uncaught `KeyError` (the key is built one statement before the
`try`), instead of returning `(ERR, None)`: the `except` handler that would
return `(ERR, None)` is unreachable, since every statement inside the `try`
is total. -/
theorem c4_malformed_incoming_raises :
    fetchDataCalls Status.SUCCESS [malformedRow] Status.SUCCESS [dupRowA] =
      FetchOutcome.raisedKeyError ∧
    (∀ e f : List Row, mergeRecords e f ≠ MergeOutcome.errNone) :=
  ⟨by decide, mergeRecords_ne_errNone⟩

/-- Claim C5 (corrected), counterexample: with an empty base batch the
fallback path returns the fetched rows without normalization, so an output
row carries the field `foo`, which is outside the allow-list. -/
theorem c5_counterexample :
    fetchDataCalls Status.SUCCESS [strayFieldRow] Status.EMPTY [] =
      FetchOutcome.result Status.SUCCESS (some [strayFieldRow]) ∧
    ("foo", Val.vs "bar") ∈ strayFieldRow ∧
    ("foo" : String) ∉ AP_OPTION_COLUMNS := by decide

/-- Claim C5 (corrected), amended: every row of an output produced through
the merge path is the normalization of some input row: all its fields are
allow-listed, `index` and `level_0` never occur, and each field carries the
value the corresponding input row had. -/
theorem c5_merge_path_field_restriction :
    ∀ (fDf eDf out : List Row), eDf ≠ [] →
    fetchDataCalls Status.SUCCESS fDf Status.SUCCESS eDf =
      FetchOutcome.result Status.SUCCESS (some out) →
    ∀ x ∈ out, ∃ r, (r ∈ eDf ∨ r ∈ fDf) ∧ x = normalizeRow r ∧
      ∀ p ∈ x, p.1 ∈ AP_OPTION_COLUMNS ∧ p.1 ≠ "index" ∧ p.1 ≠ "level_0" ∧
        alookup r p.1 = some p.2 := by
  intro fDf eDf out hne h x hx
  obtain ⟨r, hr, he⟩ :=
    mergeRecords_provenance (fetchDataCalls_merge_path hne h) x hx
  refine ⟨r, hr, he, ?_⟩
  intro p hp
  rw [he] at hp
  exact mem_normalizeRow hp

/-- Witness for C5's amended theorem at a concrete merge-path input. -/
theorem c5_witness :
    ∃ r, (r ∈ [rowEarly] ∨ r ∈ ([] : List Row)) ∧ rowEarly = normalizeRow r ∧
      ∀ p ∈ rowEarly, p.1 ∈ AP_OPTION_COLUMNS ∧ p.1 ≠ "index" ∧
        p.1 ≠ "level_0" ∧ alookup r p.1 = some p.2 :=
  c5_merge_path_field_restriction [] [rowEarly] [rowEarly]
    (by decide) (by decide) rowEarly (by decide)

/-- Claim C6 (corrected), counterexample: re-merging a base batch with itself
returns the batch in its input order — here descending, because the final
sort's result is discarded — while the batch sorted ascending by
`(date, strike)` is the reversed list; the result is therefore not
`base` sorted. -/
theorem c6_counterexample :
    fetchDataCalls Status.SUCCESS [rowLate, rowEarly] Status.SUCCESS
        [rowLate, rowEarly] =
      FetchOutcome.result Status.SUCCESS (some [rowLate, rowEarly]) ∧
    sortByDateStrike [rowLate, rowEarly] = [rowEarly, rowLate] ∧
    ([rowLate, rowEarly] : List Row) ≠ [rowEarly, rowLate] := by decide

/-- Claim C6 (corrected), amended: reconciling a base batch with an incoming
batch identical to it gives exactly the outcome of reconciling it with an
empty incoming batch — re-merging the same data introduces no rows — and when
the base is well-keyed, key-distinct and already normalized, the result is
the base itself, in input order. -/
theorem c6_idempotent_no_duplicates :
    ∀ base : List Row,
    mergeRecords base base = mergeRecords base [] ∧
    ((∀ r ∈ base, (dateStrikeName r).isSome) →
      List.Pairwise (fun a b => dateStrikeName a ≠ dateStrikeName b) base →
      (∀ r ∈ base, normalizeRow r = r) →
      mergeRecords base base = MergeOutcome.ok base) := by
  intro base
  exact ⟨mergeRecords_self base,
    fun h1 h2 h3 => mergeRecords_self_normalized h1 h2 h3⟩

/-- Witness for C6's amended theorem at a concrete base batch. -/
theorem c6_witness :
    mergeRecords [rowEarly, rowLate] [rowEarly, rowLate] =
      MergeOutcome.ok [rowEarly, rowLate] :=
  (c6_idempotent_no_duplicates [rowEarly, rowLate]).2
    (by decide) (by decide) (by decide)

/-- Claim C7 (corrected), counterexample: when the incoming fetch is unusable
(status ERR) and the base batch is non-empty, `fetch_data` does not fall back
to the base batch: it returns the fetch status with the placeholder
one-empty-row dataframe. -/
theorem c7_counterexample :
    fetchDataCalls Status.ERR [rowEarly] Status.SUCCESS [rowLate] =
      FetchOutcome.result Status.ERR (some initialDf) ∧
    FetchOutcome.result Status.ERR (some initialDf) ≠
      FetchOutcome.result Status.SUCCESS (some [rowLate]) := by decide

/-- Claim C7 (corrected), amended: the fallback runs when the BASE (extracted)
batch is empty or its extraction did not succeed; it then returns the
incoming (fetched) batch alone, sorted ascending by `(date, strike)`, with
status SUCCESS — and when the incoming fetch itself did not succeed,
`fetch_data` returns the fetch status with the placeholder dataframe, never
the base batch. -/
theorem c7_fallback_behavior :
    ∀ (fDf eDf : List Row) (eSt : Status),
    ((eSt ≠ Status.SUCCESS ∨ eDf = []) → sortValuesRaises fDf = false →
      fetchDataCalls Status.SUCCESS fDf eSt eDf =
        FetchOutcome.result Status.SUCCESS (some (sortByDateStrike fDf))) ∧
    (∀ st : Status, st ≠ Status.SUCCESS →
      fetchDataCalls st fDf eSt eDf = FetchOutcome.result st (some initialDf)) := by
  intro fDf eDf eSt
  constructor
  · intro hbase hsort
    have hcond : ¬(eSt = Status.SUCCESS ∧ 0 < eDf.length) := by
      rintro ⟨hs, hl⟩
      rcases hbase with hb | hb
      · exact hb hs
      · rw [hb] at hl; exact absurd hl (by simp)
    unfold fetchDataCalls
    rw [if_pos rfl, if_neg hcond,
      if_neg (by rw [hsort]; exact Bool.false_ne_true)]
  · intro st hst
    unfold fetchDataCalls
    rw [if_neg hst]

/-- Witness for C7's amended theorem: empty base, two unsorted fetched rows;
the fallback returns them sorted ascending. -/
theorem c7_witness :
    fetchDataCalls Status.SUCCESS [rowLate, rowEarly] Status.EMPTY [] =
      FetchOutcome.result Status.SUCCESS
        (some (sortByDateStrike [rowLate, rowEarly])) ∧
    sortByDateStrike [rowLate, rowEarly] = [rowEarly, rowLate] :=
  ⟨(c7_fallback_behavior [rowLate, rowEarly] [] Status.EMPTY).1
    (Or.inl (by decide)) (by decide), by decide⟩

/-- Claim C8 (corrected), counterexample: on the spec's concrete scenario the
call does not return the claimed `(SUCCESS, rows)` pair. -/
theorem c8_counterexample :
    fetchDataCalls Status.SUCCESS [incRow1, incRow2] Status.SUCCESS [baseRow] ≠
      FetchOutcome.result Status.SUCCESS (some [baseRow, incRow2]) := by decide

/-- Claim C8 (corrected), amended: on the spec's concrete scenario the merge
builds exactly the claimed record list — the base version of the duplicated
key followed by the new incoming row — but the whole call then raises
`KeyError`, because no row carries the `date` field the final
`sort_values(by=['date','strike'])` requires. -/
theorem c8_concrete_outcome :
    mergeRecords [baseRow] [incRow1, incRow2] =
      MergeOutcome.ok [baseRow, incRow2] ∧
    fetchDataCalls Status.SUCCESS [incRow1, incRow2] Status.SUCCESS [baseRow] =
      FetchOutcome.raisedKeyError := by decide

/-- Claim C9 (confirmed): for any `work_dict` without the `apcalls`/`apputs`
alias keys, the call branch derives the cached-copy `s3_key` from
`work_dict['redis_key']` while the put branch derives it from
`work_dict['s3_key']`; on a `work_dict` whose `redis_key` and `s3_key`
differ, the two branches therefore build their `s3_key` from different
sources. -/
theorem c9_key_derivation_asymmetry :
    (∀ (wd : WorkDict) (rk sk : String),
      alookup wd "apcalls" = Option.none → alookup wd "apputs" = Option.none →
      alookup wd "redis_key" = some rk → alookup wd "s3_key" = some sk →
      deriveKeysCalls wd = some (rk ++ "_apcalls", rk ++ "_apcalls") ∧
      deriveKeysPuts wd = some (rk ++ "_apputs", sk ++ "_apputs")) ∧
    (deriveKeysCalls [("redis_key", "R"), ("s3_key", "S")] =
        some ("R_apcalls", "R_apcalls") ∧
      deriveKeysPuts [("redis_key", "R"), ("s3_key", "S")] =
        some ("R_apputs", "S_apputs") ∧ ("R" : String) ≠ "S") := by
  constructor
  · intro wd rk sk h1 h2 h3 h4
    constructor
    · simp only [deriveKeysCalls, h1, h3]
    · simp only [deriveKeysPuts, h2, h3, h4]
  · exact ⟨by decide, by decide, by decide⟩

/-- Witness for C9 applying the universal part at a concrete `work_dict`. -/
theorem c9_witness :
    deriveKeysCalls [("redis_key", "R"), ("s3_key", "S")] =
        some ("R_apcalls", "R_apcalls") ∧
      deriveKeysPuts [("redis_key", "R"), ("s3_key", "S")] =
        some ("R_apputs", "S_apputs") :=
  c9_key_derivation_asymmetry.1 [("redis_key", "R"), ("s3_key", "S")] "R" "S"
    (by decide) (by decide) (by decide) (by decide)

/-- Claim C10 (confirmed): when neither the resolved fetch type's lowered
string form is an `apcalls`/`apputs` alias nor the resolved value is one of
the `FETCH_AP_CALLS`/`FETCH_AP_PUTS` enums, `fetch_data` raises
`NotImplementedError` and returns no `(status, dataframe)` pair. -/
theorem c10_unsupported_fetch_type_raises :
    ∀ (arg wdFt : PyScalar) (fs : Status) (fdf : List Row) (es : Status)
      (edf : List Row),
    ¬(useFetchName (resolveFetchType arg wdFt) = some "apcalls" ∨
        resolveFetchType arg wdFt = PyScalar.pint FETCH_AP_CALLS) →
    ¬(useFetchName (resolveFetchType arg wdFt) = some "apputs" ∨
        resolveFetchType arg wdFt = PyScalar.pint FETCH_AP_PUTS) →
    fetchData arg wdFt fs fdf es edf = FetchOutcome.raisedNotImplemented ∧
    ∀ (st : Status) (df : Option (List Row)),
      fetchData arg wdFt fs fdf es edf ≠ FetchOutcome.result st df := by
  intro arg wdFt fs fdf es edf h1 h2
  have hd : dispatchBranch arg wdFt = Branch.unsupported := by
    unfold dispatchBranch
    rw [if_neg h1, if_neg h2]
  have hu : fetchData arg wdFt fs fdf es edf =
      FetchOutcome.raisedNotImplemented := by
    unfold fetchData
    rw [hd]
  exact ⟨hu, fun st df => by rw [hu]; simp⟩

/-- Witness for C10: the string `tdcalls` matches no supported fetcher, so
the call raises. -/
theorem c10_witness :
    fetchData (PyScalar.pstr "tdcalls") PyScalar.pnone Status.SUCCESS []
      Status.SUCCESS [] = FetchOutcome.raisedNotImplemented :=
  (c10_unsupported_fetch_type_raises (PyScalar.pstr "tdcalls") PyScalar.pnone
    Status.SUCCESS [] Status.SUCCESS [] (by decide) (by decide)).1

end StockAnalysis
